import Mathlib

/-!
Verification development for the cactbot matching-and-scheduling engine and
its build tooling.  Definitions are shallow embeddings: the trigger data and
the build script are translated from the repository sources; the dispatcher,
scheduler, parser, loader and resolver are modelled from the specification
(the engine code itself is not part of the supplied sources).
-/

namespace Cactbot

/-! ## Core data model (dispatcher and scheduler) -/

/-- Modelled from the spec: a LogEvent is a kind, a monotonically
non-decreasing timestamp and a mapping from field name to string.
Time is modelled as a rational number of seconds. -/
structure LogEvent where
  kind : String
  timestamp : ℚ
  fields : List (String × String)

/-- Captured fields of a match: a mapping from field name to string. -/
abbrev Fields := List (String × String)

/-- Modelled from the spec: the single mutable SharedState structure, read by
rule conditions; modelled as a string-keyed mapping. -/
abbrev SharedState := List (String × String)

/-- First-match lookup in a string-keyed association list. -/
def fieldLookup (f : Fields) (k : String) : Option String :=
  match f with
  | [] => none
  | (k2, v) :: rest => if k2 = k then some v else fieldLookup rest k

/-- Modelled from the spec: a TriggerRule with id, event kind, compiled
matcher, condition, delay function, optional suppression window and optional
per-rule dedupe-key override (default dedupe key: the rule id). -/
structure TriggerRule where
  id : String
  eventKind : String
  pattern : LogEvent → Option Fields
  condition : SharedState → Fields → Bool
  delayFn : Fields → ℚ
  suppressWindow : Option ℚ
  dedupeKeyFn : Option (Fields → String)

/-- Modelled from the spec: the dedupe key of a match; default is the rule
id, a per-rule override may derive it from the matched fields. -/
def TriggerRule.dedupeKey (r : TriggerRule) (f : Fields) : String :=
  match r.dedupeKeyFn with
  | none => r.id
  | some g => g f

/-- Modelled from the spec: a TriggerInstance is the runtime record of one
firing, owned by the Action Scheduler from creation to firing or
cancellation.  The key pairs the rule id with the dedupe key. -/
structure TriggerInstance where
  token : Nat
  key : String × String
  fireAt : ℚ
  matchedFields : Fields

/-- Modelled from the spec: the dispatcher/scheduler state: suppression
entries keyed by (ruleId, dedupe key) holding lastFiredAt, the pending
TriggerInstances, the record of fired actions, the append-only log of every
scheduling request, and a fresh-token counter. -/
structure EngineState where
  suppressEntries : List ((String × String) × ℚ)
  pending : List TriggerInstance
  fired : List (ℚ × (String × String) × Fields)
  scheduledLog : List (ℚ × (String × String) × Fields)
  nextToken : Nat

/-- The initial engine state: nothing recorded, nothing pending. -/
def EngineState.init : EngineState :=
  { suppressEntries := [], pending := [], fired := [], scheduledLog := [], nextToken := 0 }

/-- First-match lookup in the suppression map. -/
def alookup (k : String × String) : List ((String × String) × ℚ) → Option ℚ
  | [] => none
  | (k2, v) :: rest => if k2 = k then some v else alookup k rest

/-- Modelled from the spec: an unexpired SuppressionEntry exists for a key
when the rule has a suppression window W, an entry lastFiredAt is recorded,
and now - lastFiredAt has not yet exceeded W (entries expire, i.e. are
ignored, once now - lastFiredAt > W). -/
def suppressedAt (r : TriggerRule) (s : EngineState) (k : String × String) (now : ℚ) : Bool :=
  match r.suppressWindow, alookup k s.suppressEntries with
  | some w, some last => decide (now - last ≤ w)
  | _, _ => false

/-- Modelled from the spec: a negative delay is clamped to zero. -/
def clampDelay (d : ℚ) : ℚ :=
  if d < 0 then 0 else d

/-- The clamped delay is exactly max 0 d. -/
theorem clampDelay_eq_max (d : ℚ) : clampDelay d = max 0 d := by
  unfold clampDelay
  rcases lt_or_le d 0 with h | h
  · rw [if_pos h, max_eq_left (le_of_lt h)]
  · rw [if_neg (not_lt.mpr h), max_eq_right h]

/-- Modelled from the spec: scheduling a new TriggerInstance for a key first
cancels any pending instance for the same key (last match wins), then appends
the new instance; the request is also appended to the scheduling log. -/
def schedule (s : EngineState) (k : String × String) (fireAt : ℚ) (f : Fields) : EngineState :=
  { suppressEntries := s.suppressEntries
    pending := s.pending.filter (fun i => i.key ≠ k) ++ [⟨s.nextToken, k, fireAt, f⟩]
    fired := s.fired
    scheduledLog := s.scheduledLog ++ [(fireAt, k, f)]
    nextToken := s.nextToken + 1 }

/-- Modelled from the spec: dispatch of one event against one rule: select by
event kind, run the matcher, evaluate the condition, skip silently on an
unexpired suppression entry for the dedupe key, otherwise record the
suppression entry at the event timestamp, clamp a negative delay to zero and
schedule the action after the delay. -/
def onEvent (r : TriggerRule) (shared : SharedState) (e : LogEvent) (s : EngineState) :
    EngineState :=
  if r.eventKind = e.kind then
    match r.pattern e with
    | none => s
    | some f =>
      if r.condition shared f then
        let k : String × String := (r.id, r.dedupeKey f)
        if suppressedAt r s k e.timestamp then s
        else
          let s2 := { s with suppressEntries := (k, e.timestamp) :: s.suppressEntries }
          schedule s2 k (e.timestamp + clampDelay (r.delayFn f)) f
      else s
  else s

/-- Modelled from the spec: dispatch of one event against every registered
rule in registration order. -/
def onEventAll (rules : List TriggerRule) (shared : SharedState) (e : LogEvent)
    (s : EngineState) : EngineState :=
  rules.foldl (fun acc r => onEvent r shared e acc) s

/-- Modelled from the spec: the timer service fires every pending instance
whose fire time has been reached, recording each firing at its fire time and
removing it from the pending set. -/
def fireDue (now : ℚ) (s : EngineState) : EngineState :=
  { s with
    pending := s.pending.filter (fun i => decide (now < i.fireAt))
    fired := s.fired ++
      (s.pending.filter (fun i => decide (i.fireAt ≤ now))).map
        (fun i => (i.fireAt, i.key, i.matchedFields)) }

/-- Modelled from the spec: the states the dispatcher/scheduler pair can
reach from the initial state by dispatching events and running due timers. -/
inductive Reachable (rules : List TriggerRule) : EngineState → Prop
  | init : Reachable rules EngineState.init
  | event (shared : SharedState) (e : LogEvent) {s : EngineState} :
      Reachable rules s → Reachable rules (onEventAll rules shared e s)
  | fire (now : ℚ) {s : EngineState} :
      Reachable rules s → Reachable rules (fireDue now s)

/-! ## Embedded trigger rules from
src/ui/raidboss/data/06-ew/dungeon/alzadaals_legacy.ts -/

/-- Value of a non-empty all-digit character list, none otherwise. -/
def natOfDigits (cs : List Char) : Option Nat :=
  if cs ≠ [] ∧ cs.all Char.isDigit then
    some (cs.foldl (fun a c => a * 10 + (c.toNat - 48)) 0)
  else none

/-- Split a character list at the decimal point. -/
def splitDot (cs : List Char) (cur : List Char) : List (List Char) :=
  match cs with
  | [] => [cur.reverse]
  | c :: rest => if c = '.' then cur.reverse :: splitDot rest [] else splitDot rest (c :: cur)

/-- Rational value of a decimal literal such as 2 or 2.5, modelling the
JavaScript parseFloat on the well-formed decimal strings found in log
fields. -/
def parseFloatQ (s : String) : Option ℚ :=
  match splitDot s.toList [] with
  | [w] => (natOfDigits w).map (fun n => (n : ℚ))
  | [w, fr] =>
    match natOfDigits w, natOfDigits fr with
    | some a, some b => some (((a * 10 ^ fr.length + b : ℕ) : ℚ) / ((10 ^ fr.length : ℕ) : ℚ))
    | _, _ => none
  | _ => none

/-- Embedded from alzadaals_legacy.ts lines 64-80: the rule with id
Alzadaal Articulated Bits, type StartsUsing, matching ability id 6F19 from
source Armored Chariot with capture false (no captured fields),
suppressSeconds 5, no condition, no delay, default dedupe key. -/
def alzadaalArticulatedBits : TriggerRule :=
  { id := "Alzadaal Articulated Bits"
    eventKind := "StartsUsing"
    pattern := fun e =>
      if fieldLookup e.fields "id" = some "6F19" ∧
          fieldLookup e.fields "source" = some "Armored Chariot"
      then some [] else none
    condition := fun _ _ => true
    delayFn := fun _ => 0
    suppressWindow := some 5
    dedupeKeyFn := none }

/-- Embedded from alzadaals_legacy.ts lines 81-88: the rule with id
Alzadaal Graviton Cannon, type StartsUsing, matching ability id 7373 from
source Armored Chariot with capture, condition targetIsYou, and
delaySeconds computed as parseFloat of the castTime field minus 4. -/
def alzadaalGravitonCannon : TriggerRule :=
  { id := "Alzadaal Graviton Cannon"
    eventKind := "StartsUsing"
    pattern := fun e =>
      if fieldLookup e.fields "id" = some "7373" ∧
          fieldLookup e.fields "source" = some "Armored Chariot"
      then some e.fields else none
    condition := fun shared f =>
      match fieldLookup shared "me", fieldLookup f "target" with
      | some me, some tgt => decide (me = tgt)
      | _, _ => false
    delayFn := fun f =>
      (match fieldLookup f "castTime" with
        | some s => (parseFloatQ s).getD 0
        | none => 0) - 4
    suppressWindow := none
    dedupeKeyFn := none }

/-! ## Dispatcher dispatch lemmas -/

/-- When the event kind, the matcher and the condition all accept and no
unexpired suppression entry exists for the dedupe key, dispatch records the
suppression entry at the event timestamp and schedules the action after the
clamped delay. -/
theorem onEvent_eq_schedule (r : TriggerRule) (shared : SharedState) (e : LogEvent)
    (s : EngineState) (f : Fields)
    (hk : r.eventKind = e.kind) (hm : r.pattern e = some f)
    (hc : r.condition shared f = true)
    (hs : suppressedAt r s (r.id, r.dedupeKey f) e.timestamp = false) :
    onEvent r shared e s =
      schedule { s with suppressEntries := ((r.id, r.dedupeKey f), e.timestamp) :: s.suppressEntries }
        (r.id, r.dedupeKey f) (e.timestamp + clampDelay (r.delayFn f)) f := by
  unfold onEvent
  rw [if_pos hk, hm]
  simp only [hc, if_pos, hs, Bool.false_eq_true, if_false, if_true]

/-- When the event kind, the matcher and the condition all accept but an
unexpired suppression entry exists for the dedupe key, dispatch skips the
event entirely: the state is unchanged. -/
theorem onEvent_suppressed (r : TriggerRule) (shared : SharedState) (e : LogEvent)
    (s : EngineState) (f : Fields)
    (hk : r.eventKind = e.kind) (hm : r.pattern e = some f)
    (hc : r.condition shared f = true)
    (hs : suppressedAt r s (r.id, r.dedupeKey f) e.timestamp = true) :
    onEvent r shared e s = s := by
  unfold onEvent
  rw [if_pos hk, hm]
  simp only [hc, hs, if_true]

/-- A key with no suppression entry recorded is never suppressed. -/
theorem suppressedAt_of_alookup_none (r : TriggerRule) (s : EngineState)
    (k : String × String) (now : ℚ) (h : alookup k s.suppressEntries = none) :
    suppressedAt r s k now = false := by
  unfold suppressedAt
  rw [h]
  cases r.suppressWindow <;> rfl

/-- With a window w and a recorded entry last, suppression holds exactly when
now - last has not exceeded w. -/
theorem suppressedAt_of_alookup_some (r : TriggerRule) (s : EngineState)
    (k : String × String) (now last w : ℚ)
    (hw : r.suppressWindow = some w) (h : alookup k s.suppressEntries = some last) :
    suppressedAt r s k now = decide (now - last ≤ w) := by
  unfold suppressedAt
  rw [h, hw]

/-- A rule without a suppression window is never suppressed. -/
theorem suppressedAt_no_window (r : TriggerRule) (s : EngineState)
    (k : String × String) (now : ℚ) (hw : r.suppressWindow = none) :
    suppressedAt r s k now = false := by
  unfold suppressedAt
  rw [hw]

/-- Claim C1: for a rule with suppression window w and a fixed dedupe key,
two matching events with the same dedupe key less than w apart produce
exactly one scheduled action, the one from the first event; two such events
more than w apart produce two scheduled actions. -/
theorem c1_suppression_window
    (r : TriggerRule) (w : ℚ) (shared : SharedState) (e1 e2 : LogEvent) (f1 f2 : Fields)
    (hw : r.suppressWindow = some w)
    (hk1 : r.eventKind = e1.kind) (hk2 : r.eventKind = e2.kind)
    (hm1 : r.pattern e1 = some f1) (hm2 : r.pattern e2 = some f2)
    (hc1 : r.condition shared f1 = true) (hc2 : r.condition shared f2 = true)
    (hkey : r.dedupeKey f2 = r.dedupeKey f1) :
    (e2.timestamp - e1.timestamp < w →
      (onEvent r shared e2 (onEvent r shared e1 EngineState.init)).scheduledLog =
        [(e1.timestamp + clampDelay (r.delayFn f1), (r.id, r.dedupeKey f1), f1)]) ∧
    (w < e2.timestamp - e1.timestamp →
      (onEvent r shared e2 (onEvent r shared e1 EngineState.init)).scheduledLog =
        [(e1.timestamp + clampDelay (r.delayFn f1), (r.id, r.dedupeKey f1), f1),
         (e2.timestamp + clampDelay (r.delayFn f2), (r.id, r.dedupeKey f2), f2)]) := by
  have h0 : suppressedAt r EngineState.init (r.id, r.dedupeKey f1) e1.timestamp = false :=
    suppressedAt_of_alookup_none r EngineState.init _ _ rfl
  have hs1 := onEvent_eq_schedule r shared e1 EngineState.init f1 hk1 hm1 hc1 h0
  have halook : alookup (r.id, r.dedupeKey f2)
      (onEvent r shared e1 EngineState.init).suppressEntries = some e1.timestamp := by
    rw [hs1]
    simp [schedule, alookup, hkey]
  have hsup2 : suppressedAt r (onEvent r shared e1 EngineState.init)
      (r.id, r.dedupeKey f2) e2.timestamp = decide (e2.timestamp - e1.timestamp ≤ w) :=
    suppressedAt_of_alookup_some r _ _ _ _ _ hw halook
  constructor
  · intro hlt
    have hsb : suppressedAt r (onEvent r shared e1 EngineState.init)
        (r.id, r.dedupeKey f2) e2.timestamp = true := by
      rw [hsup2]
      exact decide_eq_true (le_of_lt hlt)
    rw [onEvent_suppressed r shared e2 _ f2 hk2 hm2 hc2 hsb, hs1]
    simp [schedule, EngineState.init]
  · intro hgt
    have hsb : suppressedAt r (onEvent r shared e1 EngineState.init)
        (r.id, r.dedupeKey f2) e2.timestamp = false := by
      rw [hsup2]
      simp only [decide_eq_false_iff_not, not_le]
      exact hgt
    rw [onEvent_eq_schedule r shared e2 _ f2 hk2 hm2 hc2 hsb, hs1]
    simp [schedule, EngineState.init]

/-- Witness for Claim C1: the Alzadaal Articulated Bits rule with its
suppression window of 5 seconds, fed two matching StartsUsing events 2
seconds apart, schedules exactly the one action from the first event. -/
theorem c1_suppression_window_witness :
    (onEvent alzadaalArticulatedBits []
        ⟨"StartsUsing", 2, [("id", "6F19"), ("source", "Armored Chariot")]⟩
        (onEvent alzadaalArticulatedBits []
          ⟨"StartsUsing", 0, [("id", "6F19"), ("source", "Armored Chariot")]⟩
          EngineState.init)).scheduledLog =
      [(0, ("Alzadaal Articulated Bits", "Alzadaal Articulated Bits"), [])] := by
  have h := (c1_suppression_window alzadaalArticulatedBits 5 []
      ⟨"StartsUsing", 0, [("id", "6F19"), ("source", "Armored Chariot")]⟩
      ⟨"StartsUsing", 2, [("id", "6F19"), ("source", "Armored Chariot")]⟩
      [] [] rfl rfl rfl (by decide) (by decide) rfl rfl rfl).1 (by norm_num)
  refine h.trans ?_
  norm_num [alzadaalArticulatedBits, TriggerRule.dedupeKey, clampDelay]

/-- Claim C2: last match wins.  For a rule without suppression, when a first
match is scheduled at time t1 with clamped delay d1 and a second match for
the same dedupe key arrives at t2 before the first fires, exactly one action
fires over the whole run, it carries the second match's fields, and it fires
at t2 + d2; the first pending instance is cancelled and never fires. -/
theorem c2_last_match_wins
    (r : TriggerRule) (shared : SharedState) (e1 e2 : LogEvent) (f1 f2 : Fields) (T : ℚ)
    (hw : r.suppressWindow = none)
    (hk1 : r.eventKind = e1.kind) (hk2 : r.eventKind = e2.kind)
    (hm1 : r.pattern e1 = some f1) (hm2 : r.pattern e2 = some f2)
    (hc1 : r.condition shared f1 = true) (hc2 : r.condition shared f2 = true)
    (hkey : r.dedupeKey f2 = r.dedupeKey f1)
    (hbefore : e2.timestamp < e1.timestamp + clampDelay (r.delayFn f1))
    (hT : e2.timestamp + clampDelay (r.delayFn f2) ≤ T) :
    (fireDue T (onEvent r shared e2
        (fireDue e2.timestamp (onEvent r shared e1 EngineState.init)))).fired =
      [(e2.timestamp + clampDelay (r.delayFn f2), (r.id, r.dedupeKey f2), f2)] ∧
    (fireDue T (onEvent r shared e2
        (fireDue e2.timestamp (onEvent r shared e1 EngineState.init)))).pending = [] := by
  have hkeep : decide (e2.timestamp < e1.timestamp + clampDelay (r.delayFn f1)) = true :=
    decide_eq_true hbefore
  have hnf : decide (e1.timestamp + clampDelay (r.delayFn f1) ≤ e2.timestamp) = false := by
    simp only [decide_eq_false_iff_not, not_le]
    exact hbefore
  have hfire : decide (e2.timestamp + clampDelay (r.delayFn f2) ≤ T) = true :=
    decide_eq_true hT
  have hTp : decide (T < e2.timestamp + clampDelay (r.delayFn f2)) = false := by
    simp only [decide_eq_false_iff_not, not_lt]
    exact hT
  rw [onEvent_eq_schedule r shared e1 EngineState.init f1 hk1 hm1 hc1
    (suppressedAt_no_window r _ _ _ hw)]
  rw [onEvent_eq_schedule r shared e2 _ f2 hk2 hm2 hc2
    (suppressedAt_no_window r _ _ _ hw)]
  constructor <;>
    simp [fireDue, schedule, EngineState.init, hkeep, hnf, hkey, hfire, hTp]

/-- Witness for Claim C2: the Alzadaal Graviton Cannon rule matched at t1 = 0
with castTime 10 (delay 6) and again at t2 = 3 with castTime 9 (delay 5):
only the second action fires, at time 8, and nothing stays pending. -/
theorem c2_last_match_wins_witness :
    (fireDue 100 (onEvent alzadaalGravitonCannon [("me", "Me")]
        ⟨"StartsUsing", 3,
          [("id", "7373"), ("source", "Armored Chariot"), ("target", "Me"),
            ("castTime", "9")]⟩
        (fireDue 3 (onEvent alzadaalGravitonCannon [("me", "Me")]
          ⟨"StartsUsing", 0,
            [("id", "7373"), ("source", "Armored Chariot"), ("target", "Me"),
              ("castTime", "10")]⟩
          EngineState.init)))).fired =
      [(8, ("Alzadaal Graviton Cannon", "Alzadaal Graviton Cannon"),
        [("id", "7373"), ("source", "Armored Chariot"), ("target", "Me"),
          ("castTime", "9")])] ∧
    (fireDue 100 (onEvent alzadaalGravitonCannon [("me", "Me")]
        ⟨"StartsUsing", 3,
          [("id", "7373"), ("source", "Armored Chariot"), ("target", "Me"),
            ("castTime", "9")]⟩
        (fireDue 3 (onEvent alzadaalGravitonCannon [("me", "Me")]
          ⟨"StartsUsing", 0,
            [("id", "7373"), ("source", "Armored Chariot"), ("target", "Me"),
              ("castTime", "10")]⟩
          EngineState.init)))).pending = [] := by
  have h := c2_last_match_wins alzadaalGravitonCannon [("me", "Me")]
      ⟨"StartsUsing", 0,
        [("id", "7373"), ("source", "Armored Chariot"), ("target", "Me"),
          ("castTime", "10")]⟩
      ⟨"StartsUsing", 3,
        [("id", "7373"), ("source", "Armored Chariot"), ("target", "Me"),
          ("castTime", "9")]⟩
      [("id", "7373"), ("source", "Armored Chariot"), ("target", "Me"), ("castTime", "10")]
      [("id", "7373"), ("source", "Armored Chariot"), ("target", "Me"), ("castTime", "9")]
      100 rfl rfl rfl (by decide) (by decide) (by decide) (by decide) rfl
      (by
        simp [alzadaalGravitonCannon, fieldLookup, parseFloatQ, splitDot, natOfDigits,
          clampDelay]
        norm_num)
      (by
        simp [alzadaalGravitonCannon, fieldLookup, parseFloatQ, splitDot, natOfDigits,
          clampDelay]
        norm_num)
  refine ⟨h.1.trans ?_, h.2⟩
  simp [alzadaalGravitonCannon, TriggerRule.dedupeKey, fieldLookup, parseFloatQ,
    splitDot, natOfDigits, clampDelay]
  norm_num

/-- Claim C5: the dispatcher schedules every accepted match with the
effective delay max 0 (delayFn matchedFields); in particular a match whose
delay function returns a negative duration is scheduled with delay zero,
that is, at the event timestamp itself. -/
theorem c5_negative_delay_clamped
    (r : TriggerRule) (shared : SharedState) (e : LogEvent) (s : EngineState) (f : Fields)
    (hk : r.eventKind = e.kind) (hm : r.pattern e = some f)
    (hc : r.condition shared f = true)
    (hs : suppressedAt r s (r.id, r.dedupeKey f) e.timestamp = false) :
    (onEvent r shared e s).scheduledLog =
      s.scheduledLog ++ [(e.timestamp + clampDelay (r.delayFn f), (r.id, r.dedupeKey f), f)] ∧
    (r.delayFn f < 0 →
      (onEvent r shared e s).scheduledLog =
        s.scheduledLog ++ [(e.timestamp, (r.id, r.dedupeKey f), f)]) := by
  rw [onEvent_eq_schedule r shared e s f hk hm hc hs]
  constructor
  · rfl
  · intro hneg
    have hmax : clampDelay (r.delayFn f) = 0 := by
      unfold clampDelay
      rw [if_pos hneg]
    simp [schedule, hmax]

/-- Witness for Claim C5: the Alzadaal Graviton Cannon rule matched with
castTime 2.5 has delaySeconds 2.5 - 4 < 0 and is scheduled at the event
timestamp itself, that is with delay zero. -/
theorem c5_negative_delay_clamped_witness :
    (onEvent alzadaalGravitonCannon [("me", "Someone")]
        ⟨"StartsUsing", 10,
          [("id", "7373"), ("source", "Armored Chariot"), ("target", "Someone"),
            ("castTime", "2.5")]⟩
        EngineState.init).scheduledLog =
      [(10, ("Alzadaal Graviton Cannon", "Alzadaal Graviton Cannon"),
        [("id", "7373"), ("source", "Armored Chariot"), ("target", "Someone"),
          ("castTime", "2.5")])] := by
  have h := (c5_negative_delay_clamped alzadaalGravitonCannon [("me", "Someone")]
      ⟨"StartsUsing", 10,
        [("id", "7373"), ("source", "Armored Chariot"), ("target", "Someone"),
          ("castTime", "2.5")]⟩
      EngineState.init
      [("id", "7373"), ("source", "Armored Chariot"), ("target", "Someone"),
        ("castTime", "2.5")]
      rfl (by decide) (by decide) (by decide)).2
      (by
        simp [alzadaalGravitonCannon, fieldLookup, parseFloatQ, splitDot, natOfDigits]
        norm_num)
  refine h.trans ?_
  simp [EngineState.init, alzadaalGravitonCannon, TriggerRule.dedupeKey]

/-! ## The pending-instance uniqueness invariant -/

/-- The (ruleId, dedupe key) keys of the pending instances, in order. -/
def pendingKeys (s : EngineState) : List (String × String) :=
  s.pending.map TriggerInstance.key

/-- Scheduling preserves distinctness of pending keys: the stale instance
for the key is cancelled before the new one is appended. -/
theorem pendingKeys_nodup_schedule (s : EngineState) (k : String × String)
    (fa : ℚ) (f : Fields) (h : (pendingKeys s).Nodup) :
    (pendingKeys (schedule s k fa f)).Nodup := by
  unfold pendingKeys schedule
  simp only [List.map_append, List.map_cons, List.map_nil]
  rw [List.nodup_append]
  refine ⟨?_, List.nodup_singleton _, ?_⟩
  · exact h.sublist ((s.pending.filter_sublist).map TriggerInstance.key)
  · intro x hx hy
    simp only [List.mem_singleton] at hy
    subst hy
    simp only [List.mem_map, List.mem_filter, decide_eq_true_eq] at hx
    obtain ⟨i, ⟨hi, hik⟩, hkey⟩ := hx
    exact hik hkey

/-- Dispatching one event against one rule preserves distinctness of
pending keys. -/
theorem pendingKeys_nodup_onEvent (r : TriggerRule) (shared : SharedState)
    (e : LogEvent) (s : EngineState) (h : (pendingKeys s).Nodup) :
    (pendingKeys (onEvent r shared e s)).Nodup := by
  unfold onEvent
  split
  · split
    · exact h
    · split
      · dsimp only
        split
        · exact h
        · exact pendingKeys_nodup_schedule _ _ _ _ h
      · exact h
  · exact h

/-- Dispatching one event against a whole rule list preserves distinctness
of pending keys. -/
theorem pendingKeys_nodup_onEventAll (rules : List TriggerRule) (shared : SharedState)
    (e : LogEvent) (s : EngineState) (h : (pendingKeys s).Nodup) :
    (pendingKeys (onEventAll rules shared e s)).Nodup := by
  induction rules generalizing s with
  | nil => exact h
  | cons r rest ih => exact ih _ (pendingKeys_nodup_onEvent r shared e s h)

/-- Firing due instances preserves distinctness of pending keys. -/
theorem pendingKeys_nodup_fireDue (now : ℚ) (s : EngineState)
    (h : (pendingKeys s).Nodup) : (pendingKeys (fireDue now s)).Nodup := by
  unfold pendingKeys fireDue
  exact h.sublist ((s.pending.filter_sublist).map TriggerInstance.key)

/-- In every reachable state, the keys of the pending instances are
pairwise distinct. -/
theorem pendingKeys_nodup_reachable (rules : List TriggerRule) {s : EngineState}
    (h : Reachable rules s) : (pendingKeys s).Nodup := by
  induction h with
  | init => simp [pendingKeys, EngineState.init]
  | event shared e hr ih => exact pendingKeys_nodup_onEventAll _ shared e _ ih
  | fire now hr ih => exact pendingKeys_nodup_fireDue now _ ih

/-- A list of instances with pairwise-distinct keys holds at most one
instance per key. -/
theorem filter_key_len_le_one {l : List TriggerInstance}
    (h : (l.map TriggerInstance.key).Nodup) (k : String × String) :
    (l.filter (fun i => i.key = k)).length ≤ 1 := by
  induction l with
  | nil => simp
  | cons i t ih =>
    simp only [List.map_cons, List.nodup_cons] at h
    obtain ⟨hnot, ht⟩ := h
    by_cases hk : i.key = k
    · rw [List.filter_cons_of_pos (by simpa using hk)]
      have hnil : t.filter (fun j => j.key = k) = [] := by
        rw [List.filter_eq_nil_iff]
        intro j hj
        simp only [decide_eq_true_eq]
        intro hjk
        exact hnot (by
          rw [hk, ← hjk]
          exact List.mem_map_of_mem TriggerInstance.key hj)
      rw [hnil]
      simp
    · rw [List.filter_cons_of_neg (by simpa using hk)]
      exact ih ht

/-- Claim C3: in every reachable state of the dispatcher/scheduler pair, at
most one TriggerInstance per (ruleId, dedupe key) is pending: a new match
for a key with a pending instance either replaces that instance or is
dropped, never leaving two pending instances for the key. -/
theorem c3_at_most_one_pending_per_key (rules : List TriggerRule) (s : EngineState)
    (h : Reachable rules s) (k : String × String) :
    (s.pending.filter (fun i => i.key = k)).length ≤ 1 :=
  filter_key_len_le_one (pendingKeys_nodup_reachable rules h) k

/-- Witness for Claim C3: after dispatching one matching event against the
Alzadaal Articulated Bits rule set from the initial state, at most one
instance is pending for the rule's key. -/
theorem c3_at_most_one_pending_per_key_witness :
    ((onEventAll [alzadaalArticulatedBits] []
        ⟨"StartsUsing", 0, [("id", "6F19"), ("source", "Armored Chariot")]⟩
        EngineState.init).pending.filter
      (fun i => i.key = ("Alzadaal Articulated Bits", "Alzadaal Articulated Bits"))).length
      ≤ 1 :=
  c3_at_most_one_pending_per_key [alzadaalArticulatedBits] _
    (Reachable.event _ _ Reachable.init) _

/-! ## Cancellation semantics of the Action Scheduler -/

/-- Modelled from the spec: lifecycle status of a scheduled callback:
pending (not yet started), started (has begun executing), done (ran to
completion), cancelled (the flag was flipped before the start). -/
inductive CbStatus
  | pendingS
  | startedS
  | doneS
  | cancelledS
  deriving DecidableEq

/-- A scheduled task in the scheduler's table: token and status. -/
structure SchedTask where
  token : Nat
  status : CbStatus
  deriving DecidableEq

/-- Modelled from the spec: the scheduler owns a table of pending tasks
indexed by token, the ordered record of callbacks that actually executed,
and a fresh-token counter. -/
structure SchedState where
  tasks : List SchedTask
  executed : List Nat
  nextTok : Nat
  deriving DecidableEq

/-- Status of the first task holding a token in a task table. -/
def statusIn (ts : List SchedTask) (t : Nat) : Option CbStatus :=
  (ts.find? (fun task => task.token == t)).map SchedTask.status

/-- Status of the task holding a token. -/
def statusOf (s : SchedState) (t : Nat) : Option CbStatus :=
  statusIn s.tasks t

/-- Replace the status of every task holding the token. -/
def setStatus (ts : List SchedTask) (t : Nat) (st : CbStatus) : List SchedTask :=
  ts.map (fun task => if task.token = t then ⟨task.token, st⟩ else task)

/-- Modelled from the spec: the scheduler operations: schedule a new
callback, cancel a token, start a callback, finish a started callback. -/
inductive SchedOp
  | scheduleOp
  | cancelOp (t : Nat)
  | startOp (t : Nat)
  | finishOp (t : Nat)

/-- Modelled from the spec: one scheduler step.  Cancellation flips the flag
only while the callback has not started; starting requires a pending task;
the callback body executes exactly when a started task finishes, and a
started task is unaffected by cancellation. -/
def applyOp (s : SchedState) : SchedOp → SchedState
  | .scheduleOp =>
    { tasks := s.tasks ++ [⟨s.nextTok, .pendingS⟩], executed := s.executed,
      nextTok := s.nextTok + 1 }
  | .cancelOp t =>
    if statusOf s t = some .pendingS then
      { s with tasks := setStatus s.tasks t .cancelledS }
    else s
  | .startOp t =>
    if statusOf s t = some .pendingS then
      { s with tasks := setStatus s.tasks t .startedS }
    else s
  | .finishOp t =>
    if statusOf s t = some .startedS then
      { tasks := setStatus s.tasks t .doneS, executed := s.executed ++ [t],
        nextTok := s.nextTok }
    else s

/-- Run a list of scheduler operations in order. -/
def applyOps (s : SchedState) (ops : List SchedOp) : SchedState :=
  ops.foldl applyOp s

/-- A successful find? in a front segment persists under append. -/
theorem find?_append_of_some {p : SchedTask → Bool} {l1 l2 : List SchedTask}
    {a : SchedTask} (h : l1.find? p = some a) : (l1 ++ l2).find? p = some a := by
  induction l1 with
  | nil => exact absurd h (by simp)
  | cons x xs ih =>
    rw [List.cons_append]
    by_cases hp : p x = true
    · rw [List.find?_cons_of_pos _ hp] at h
      rw [List.find?_cons_of_pos _ hp]
      exact h
    · rw [List.find?_cons_of_neg _ (by simpa using hp)] at h
      rw [List.find?_cons_of_neg _ (by simpa using hp)]
      exact ih h

/-- Setting the status of a different token leaves a token's status
unchanged. -/
theorem statusIn_setStatus_ne (ts : List SchedTask) (t t2 : Nat) (st : CbStatus)
    (hne : t2 ≠ t) : statusIn (setStatus ts t2 st) t = statusIn ts t := by
  induction ts with
  | nil => rfl
  | cons x xs ih =>
    unfold setStatus statusIn
    simp only [List.map_cons]
    by_cases h2 : x.token = t2
    · rw [if_pos h2]
      rw [List.find?_cons_of_neg _ (by simp [h2, hne]),
        List.find?_cons_of_neg _ (by simp [h2, hne])]
      exact ih
    · rw [if_neg h2]
      by_cases hx : x.token = t
      · rw [List.find?_cons_of_pos _ (by simp [hx]),
          List.find?_cons_of_pos _ (by simp [hx])]
      · rw [List.find?_cons_of_neg _ (by simp [hx]),
          List.find?_cons_of_neg _ (by simp [hx])]
        exact ih

/-- A cancelled token stays cancelled under every scheduler operation. -/
theorem statusOf_cancelled_applyOp (s : SchedState) (t : Nat) (op : SchedOp)
    (h : statusOf s t = some CbStatus.cancelledS) :
    statusOf (applyOp s op) t = some CbStatus.cancelledS := by
  cases op with
  | scheduleOp =>
    unfold statusOf statusIn at h ⊢
    obtain ⟨task, hf, hst⟩ := Option.map_eq_some'.mp h
    simp only [applyOp]
    rw [find?_append_of_some hf]
    simp [hst]
  | cancelOp t2 =>
    by_cases ht : t2 = t
    · subst ht
      simp only [applyOp]
      rw [if_neg (by rw [h]; simp)]
      exact h
    · simp only [applyOp]
      split
      · unfold statusOf at h ⊢
        dsimp only
        rw [statusIn_setStatus_ne s.tasks t t2 _ ht]
        exact h
      · exact h
  | startOp t2 =>
    by_cases ht : t2 = t
    · subst ht
      simp only [applyOp]
      rw [if_neg (by rw [h]; simp)]
      exact h
    · simp only [applyOp]
      split
      · unfold statusOf at h ⊢
        dsimp only
        rw [statusIn_setStatus_ne s.tasks t t2 _ ht]
        exact h
      · exact h
  | finishOp t2 =>
    by_cases ht : t2 = t
    · subst ht
      simp only [applyOp]
      rw [if_neg (by rw [h]; simp)]
      exact h
    · simp only [applyOp]
      split
      · unfold statusOf at h ⊢
        dsimp only
        rw [statusIn_setStatus_ne s.tasks t t2 _ ht]
        exact h
      · exact h

/-- A cancelled token is never added to the executed record by any single
scheduler operation. -/
theorem executed_cancelled_applyOp (s : SchedState) (t : Nat) (op : SchedOp)
    (h : statusOf s t = some CbStatus.cancelledS) (hnm : t ∉ s.executed) :
    t ∉ (applyOp s op).executed := by
  cases op with
  | scheduleOp => exact hnm
  | cancelOp t2 =>
    simp only [applyOp]
    split <;> exact hnm
  | startOp t2 =>
    simp only [applyOp]
    split <;> exact hnm
  | finishOp t2 =>
    by_cases ht : t2 = t
    · subst ht
      simp only [applyOp]
      rw [if_neg (by rw [h]; simp)]
      exact hnm
    · simp only [applyOp]
      split
      · intro hmem
        rcases List.mem_append.mp hmem with hin | hin
        · exact hnm hin
        · rw [List.mem_singleton] at hin
          exact ht hin.symm
      · exact hnm

/-- Claim C4: cancellation semantics of the scheduler.  If cancellation took
effect before the callback started (its status is cancelled), the callback
never executes, whatever operations follow.  If the callback has already
begun executing, cancel is a no-op: the state is unchanged, and the callback
still runs to completion, its execution being recorded. -/
theorem c4_cancel_before_start_or_run_to_completion
    (s : SchedState) (t : Nat) (ops : List SchedOp) :
    (statusOf s t = some CbStatus.cancelledS → t ∉ s.executed →
      t ∉ (applyOps s ops).executed) ∧
    (statusOf s t = some CbStatus.startedS →
      applyOp s (SchedOp.cancelOp t) = s ∧
      (applyOps s [SchedOp.cancelOp t, SchedOp.finishOp t]).executed =
        s.executed ++ [t]) := by
  constructor
  · intro h hnm
    induction ops generalizing s with
    | nil => exact hnm
    | cons op rest ih =>
      exact ih (applyOp s op) (statusOf_cancelled_applyOp s t op h)
        (executed_cancelled_applyOp s t op h hnm)
  · intro h
    have hcan : applyOp s (SchedOp.cancelOp t) = s := by
      simp only [applyOp]
      rw [if_neg (by rw [h]; simp)]
    refine ⟨hcan, ?_⟩
    show (applyOp (applyOp s (SchedOp.cancelOp t)) (SchedOp.finishOp t)).executed =
      s.executed ++ [t]
    rw [hcan]
    simp only [applyOp]
    rw [if_pos h]

/-- Witness for Claim C4: a concrete cancelled task is never executed by a
later start and finish; a concrete started task is unaffected by cancel and
its execution is still recorded by the following finish. -/
theorem c4_cancel_before_start_or_run_to_completion_witness :
    ((0 : Nat) ∉ (applyOps ⟨[⟨0, CbStatus.cancelledS⟩], [], 1⟩
        [SchedOp.startOp 0, SchedOp.finishOp 0]).executed) ∧
    (applyOp ⟨[⟨0, CbStatus.startedS⟩], [], 1⟩ (SchedOp.cancelOp 0) =
        ⟨[⟨0, CbStatus.startedS⟩], [], 1⟩ ∧
      (applyOps ⟨[⟨0, CbStatus.startedS⟩], [], 1⟩
          [SchedOp.cancelOp 0, SchedOp.finishOp 0]).executed = [] ++ [0]) :=
  ⟨(c4_cancel_before_start_or_run_to_completion ⟨[⟨0, CbStatus.cancelledS⟩], [], 1⟩ 0
      [SchedOp.startOp 0, SchedOp.finishOp 0]).1 (by decide) (by decide),
    (c4_cancel_before_start_or_run_to_completion ⟨[⟨0, CbStatus.startedS⟩], [], 1⟩ 0
      []).2 (by decide)⟩

/-! ## Line Parser -/

/-- Modelled from the spec: the result of parsing one raw log line: a typed
LogEvent or NoMatch; there is no third outcome and no exception. -/
inductive ParseResult
  | event (e : LogEvent)
  | noMatch

/-- Split a character list on the pipe delimiter. -/
def splitPipe (cs : List Char) (cur : List Char) : List (List Char) :=
  match cs with
  | [] => [cur.reverse]
  | c :: rest => if c = '|' then cur.reverse :: splitPipe rest [] else splitPipe rest (c :: cur)

/-- Modelled from the spec: the fixed, versioned set of known event-kind
codes of the line grammar (first column), mapped to the event kind. -/
def kindOfCode (code : String) : Option String :=
  if code = "20" then some "StartsUsing"
  else if code = "21" then some "AbilityUsed"
  else if code = "26" then some "StatusApplied"
  else if code = "27" then some "HeadMarker"
  else none

/-- Modelled from the spec: the Line Parser indexes fields by position;
columns after the code and timestamp become positionally named fields. -/
def positionalFields (parts : List String) : Fields :=
  parts.enum.map (fun p => ("f" ++ toString (p.1 + 2), p.2))

/-- Modelled from the spec: total line parser over the pipe-delimited
grammar code|timestamp|fields...; any line that does not match the grammar
yields NoMatch. -/
def parse (raw : String) : ParseResult :=
  match (splitPipe raw.toList []).map (fun cs => String.mk cs) with
  | code :: ts :: rest =>
    match kindOfCode code, parseFloatQ ts with
    | some kind, some t => ParseResult.event ⟨kind, t, positionalFields rest⟩
    | _, _ => ParseResult.noMatch
  | _ => ParseResult.noMatch

/-- Modelled from the spec: an unparseable line is dropped and counted as
one non-fatal diagnostic. -/
def parseWithDiag (raw : String) : ParseResult × Nat :=
  match parse raw with
  | ParseResult.noMatch => (ParseResult.noMatch, 1)
  | r => (r, 0)

/-- Claim C6: the Line Parser is total: for every raw line it returns either
a LogEvent or NoMatch (never a crash, which a Lean total function cannot
produce); a line matching no known grammar yields NoMatch and is counted as
exactly one non-fatal diagnostic. -/
theorem c6_parse_total (raw : String) :
    (∃ e, parse raw = ParseResult.event e ∧ parseWithDiag raw = (ParseResult.event e, 0)) ∨
    (parse raw = ParseResult.noMatch ∧ parseWithDiag raw = (ParseResult.noMatch, 1)) := by
  cases h : parse raw with
  | event e =>
    left
    exact ⟨e, rfl, by simp [parseWithDiag, h]⟩
  | noMatch =>
    right
    exact ⟨rfl, by simp [parseWithDiag, h]⟩

/-! ## Timeline and rule-set loading -/

/-- Modelled from the spec: a raw timeline entry before validation: textual
timestamp, entry name and optional jump target name. -/
structure RawTimelineEntry where
  timeText : String
  name : String
  jumpTarget : Option String
  deriving DecidableEq

/-- Modelled from the spec: a validated TimelineEntry. -/
structure TimelineEntry where
  timestamp : ℚ
  name : String
  jumpTarget : Option String
  deriving DecidableEq

/-- Parse one raw entry; a malformed timestamp makes the entry invalid. -/
def parseEntry (r : RawTimelineEntry) : Option TimelineEntry :=
  (parseFloatQ r.timeText).map (fun t => ⟨t, r.name, r.jumpTarget⟩)

/-- Parse every raw entry; any single failure fails the whole list. -/
def parseEntries : List RawTimelineEntry → Option (List TimelineEntry)
  | [] => some []
  | r :: rest =>
    match parseEntry r, parseEntries rest with
    | some e, some es => some (e :: es)
    | _, _ => none

/-- Timestamps must be non-decreasing along the timeline. -/
def monotonicB : List TimelineEntry → Bool
  | [] => true
  | [_] => true
  | a :: b :: rest => decide (a.timestamp ≤ b.timestamp) && monotonicB (b :: rest)

/-- Every jump target must name an entry of the timeline. -/
def jumpTargetsDefined (es : List TimelineEntry) : Bool :=
  es.all (fun e =>
    match e.jumpTarget with
    | none => true
    | some tgt => es.any (fun e2 => e2.name = tgt))

/-- Modelled from the spec: all-or-nothing timeline load: a malformed entry,
non-monotonic timestamps or an undefined jump target fails the whole load. -/
def loadTimeline (raws : List RawTimelineEntry) : Option (List TimelineEntry) :=
  match parseEntries raws with
  | none => none
  | some es => if monotonicB es && jumpTargetsDefined es then some es else none

/-- Modelled from the spec: a raw trigger rule as loaded: id, declared event
kind and the field names its pattern template references. -/
structure RawRule where
  id : String
  eventKind : String
  fieldRefs : List String
  deriving DecidableEq

/-- Modelled from the spec: the field vocabulary defined for each event
kind, against which pattern templates are checked at load time. -/
def kindFieldVocab (kind : String) : List String :=
  if kind = "StartsUsing" then ["id", "source", "target", "castTime"]
  else if kind = "AbilityUsed" then ["id", "source", "target"]
  else if kind = "StatusApplied" then ["id", "target", "count"]
  else if kind = "HeadMarker" then ["id", "target"]
  else []

/-- Modelled from the spec: compilation fails fast when a template
references a field name undefined for its declared event kind. -/
def ruleValid (r : RawRule) : Bool :=
  r.fieldRefs.all (fun nm => (kindFieldVocab r.eventKind).contains nm)

/-- Modelled from the spec: all-or-nothing rule-set load. -/
def loadRuleSet (raws : List RawRule) : Option (List RawRule) :=
  if raws.all ruleValid then some raws else none

/-- Modelled from the spec: the loader-visible state: the active rule set,
the active timeline and a count of load errors. -/
structure LoaderState where
  activeRules : Option (List RawRule)
  activeTimeline : Option (List TimelineEntry)
  loadErrors : Nat
  deriving DecidableEq

/-- Modelled from the spec: applying a load of a rule set with its timeline:
if either part fails to validate, the whole load fails, one LoadError is
recorded and the previously active rule set and timeline stay installed;
otherwise both parts are installed together. -/
def applyLoad (st : LoaderState) (rawRules : List RawRule)
    (rawTl : List RawTimelineEntry) : LoaderState :=
  match loadRuleSet rawRules, loadTimeline rawTl with
  | some rs, some tl =>
    { activeRules := some rs, activeTimeline := some tl, loadErrors := st.loadErrors }
  | _, _ => { st with loadErrors := st.loadErrors + 1 }

/-- A single malformed entry fails the parse of the whole entry list. -/
theorem parseEntries_eq_none_of_mem {raws : List RawTimelineEntry}
    {r : RawTimelineEntry} (hmem : r ∈ raws) (hbad : parseEntry r = none) :
    parseEntries raws = none := by
  induction raws with
  | nil => cases hmem
  | cons x rest ih =>
    rcases List.mem_cons.mp hmem with rfl | hmem2
    · unfold parseEntries
      rw [hbad]
    · unfold parseEntries
      rw [ih hmem2]
      cases parseEntry x <;> rfl

/-- Claim C7: load atomicity.  A load containing any malformed entry fails
as a whole, and any failed rule-set or timeline load installs no partial
state: the previously active rule set and timeline remain unchanged, with
one LoadError recorded. -/
theorem c7_load_atomicity (st : LoaderState) (rawRules : List RawRule)
    (rawTl : List RawTimelineEntry) :
    ((∃ r ∈ rawTl, parseEntry r = none) → loadTimeline rawTl = none) ∧
    ((loadRuleSet rawRules = none ∨ loadTimeline rawTl = none) →
      (applyLoad st rawRules rawTl).activeRules = st.activeRules ∧
      (applyLoad st rawRules rawTl).activeTimeline = st.activeTimeline ∧
      (applyLoad st rawRules rawTl).loadErrors = st.loadErrors + 1) := by
  constructor
  · rintro ⟨r, hmem, hbad⟩
    unfold loadTimeline
    rw [parseEntries_eq_none_of_mem hmem hbad]
  · intro hfail
    rcases hfail with hr | ht
    · unfold applyLoad
      rw [hr]
      exact ⟨rfl, rfl, rfl⟩
    · unfold applyLoad
      rw [ht]
      cases loadRuleSet rawRules <;> exact ⟨rfl, rfl, rfl⟩

/-- Witness for Claim C7: a timeline containing the malformed entry with
time text x fails to load and the previously active state stays intact. -/
theorem c7_load_atomicity_witness :
    (applyLoad ⟨some [⟨"old", "StartsUsing", ["id"]⟩], some [⟨0, "start", none⟩], 0⟩
        [⟨"new", "StartsUsing", ["id"]⟩] [⟨"x", "broken", none⟩]).activeRules =
      some [⟨"old", "StartsUsing", ["id"]⟩] ∧
    (applyLoad ⟨some [⟨"old", "StartsUsing", ["id"]⟩], some [⟨0, "start", none⟩], 0⟩
        [⟨"new", "StartsUsing", ["id"]⟩] [⟨"x", "broken", none⟩]).activeTimeline =
      some [⟨0, "start", none⟩] ∧
    (applyLoad ⟨some [⟨"old", "StartsUsing", ["id"]⟩], some [⟨0, "start", none⟩], 0⟩
        [⟨"new", "StartsUsing", ["id"]⟩] [⟨"x", "broken", none⟩]).loadErrors = 1 :=
  (c7_load_atomicity _ _ _).2
    (Or.inr ((c7_load_atomicity ⟨some [⟨"old", "StartsUsing", ["id"]⟩],
        some [⟨0, "start", none⟩], 0⟩ [⟨"new", "StartsUsing", ["id"]⟩]
        [⟨"x", "broken", none⟩]).1
      ⟨⟨"x", "broken", none⟩, by simp, by decide⟩))

/-! ## Output Resolver -/

/-- Modelled from the spec: localized string tables: template key to a
mapping from locale to text. -/
abbrev OutputTable := List (String × List (String × String))

/-- First-match lookup of a template key in an output table. -/
def tableLookup (tbl : OutputTable) (key : String) : Option (List (String × String)) :=
  match tbl with
  | [] => none
  | (k, v) :: rest => if k = key then some v else tableLookup rest key

/-- Modelled from the spec: resolve a template key for a locale: the
requested locale's text if present; else the default locale's text with one
missing-translation diagnostic; else a clearly-marked placeholder with one
diagnostic.  Total by construction: it never raises. -/
def resolveOutput (tbl : OutputTable) (defaultLocale locale key : String) :
    String × List String :=
  match tableLookup tbl key with
  | none => ("[missing text: " ++ key ++ "]", ["missing key: " ++ key])
  | some locales =>
    match fieldLookup locales locale with
    | some s => (s, [])
    | none =>
      match fieldLookup locales defaultLocale with
      | some s => (s, ["missing translation: " ++ key ++ "/" ++ locale])
      | none => ("[missing text: " ++ key ++ "]", ["missing key: " ++ key])

/-- Claim C8: for every template key and locale, if the requested locale
lacks a translation but the default locale has one, resolve returns the
default locale's text with exactly one diagnostic; if the key has no text
in any locale (or is absent from the table), resolve returns a
clearly-marked placeholder with exactly one diagnostic; resolve is total so
it never raises. -/
theorem c8_resolve_fallback (tbl : OutputTable) (dl loc key : String)
    (locales : List (String × String)) (txt : String) :
    (tableLookup tbl key = some locales → fieldLookup locales loc = none →
      fieldLookup locales dl = some txt →
      (resolveOutput tbl dl loc key).1 = txt ∧
      (resolveOutput tbl dl loc key).2.length = 1) ∧
    (tableLookup tbl key = none →
      (resolveOutput tbl dl loc key).1 = "[missing text: " ++ key ++ "]" ∧
      (resolveOutput tbl dl loc key).2.length = 1) ∧
    (tableLookup tbl key = some locales → fieldLookup locales loc = none →
      fieldLookup locales dl = none →
      (resolveOutput tbl dl loc key).1 = "[missing text: " ++ key ++ "]" ∧
      (resolveOutput tbl dl loc key).2.length = 1) := by
  refine ⟨?_, ?_, ?_⟩
  · intro h1 h2 h3
    simp [resolveOutput, h1, h2, h3]
  · intro h1
    simp [resolveOutput, h1]
  · intro h1 h2 h3
    simp [resolveOutput, h1, h2, h3]

/-- Embedded from alzadaals_legacy.ts lines 70-79: the outputStrings table
of the Alzadaal Articulated Bits trigger, with its six locales. -/
def articulatedBitsOutputStrings : OutputTable :=
  [("text",
    [("en", "Avoid bit lasers"), ("de", "Weiche Drohnen-Laser aus"),
      ("fr", "Évitez les lasers"), ("ja", "レーザー回避"),
      ("cn", "躲避浮游炮激光"), ("ko", "비트가 쏘는 레이저 피하기")])]

/-- Witness for Claim C8: resolving the Articulated Bits text for the
unsupported locale pt falls back to the English text with exactly one
diagnostic. -/
theorem c8_resolve_fallback_witness :
    (resolveOutput articulatedBitsOutputStrings "en" "pt" "text").1 =
      "Avoid bit lasers" ∧
    (resolveOutput articulatedBitsOutputStrings "en" "pt" "text").2.length = 1 :=
  (c8_resolve_fallback articulatedBitsOutputStrings "en" "pt" "text"
      [("en", "Avoid bit lasers"), ("de", "Weiche Drohnen-Laser aus"),
        ("fr", "Évitez les lasers"), ("ja", "レーザー回避"),
        ("cn", "躲避浮游炮激光"), ("ko", "비트가 쏘는 레이저 피하기")]
      "Avoid bit lasers").1 (by decide) (by decide) (by decide)

/-! ## VersionChecker.GetRemoteVersion, translated from the C# plugin
source.  The .NET regex engine and WebClient are modelled as supplied
functions: a fetch that either yields the page or throws, and one matcher
per regex stage that either yields its captured group or fails to match;
int.Parse is a parser that can throw on non-numeric input. -/

/-- A .NET System.Version as used by the checker; the default-constructed
value models new Version(). -/
structure DotNetVersion where
  major : Int
  minor : Int
  revision : Int
  deriving DecidableEq

/-- The value the checker returns on every handled failure, modelling
new Version(). -/
def defaultVersion : DotNetVersion := ⟨0, 0, 0⟩

/-- Translated from VersionChecker: the release page URL constant. -/
def kReleaseUrl : String := "http://github.com/quisquous/cactbot/releases/latest"

/-- Translated from VersionChecker: the issue URL constant used in error
messages. -/
def kIssueUrl : String := "http://github.com/quisquous/cactbot/issues"

/-- Translated from VersionChecker.GetRemoteVersion: fetch the releases
page (any exception is caught, logged, and yields the default version);
run the release-title regex, the anchor-text regex and the version-number
regex in sequence, each failure being logged and yielding the default
version; finally int.Parse the three captured groups (a parse failure is
the one unhandled path and propagates as an error). -/
def getRemoteVersion (fetchPage : Except String String)
    (matchReleaseHeader : String → Option String)
    (matchAnchorText : String → Option String)
    (matchVersionNumber : String → Option (String × String × String))
    (parseIntStr : String → Option Int) :
    Except String (DotNetVersion × List String) :=
  match fetchPage with
  | Except.error e =>
    Except.ok (defaultVersion, ["Error fetching most recent github release: " ++ e])
  | Except.ok html =>
    match matchReleaseHeader html with
    | none =>
      Except.ok (defaultVersion,
        ["Error parsing most recent github release, no match found. Please report an issue at "
          ++ kIssueUrl])
    | some header =>
      match matchAnchorText header with
      | none =>
        Except.ok (defaultVersion,
          ["Error parsing most recent github release, no match found. Please report an issue at "
            ++ kIssueUrl])
      | some versionText =>
        match matchVersionNumber versionText with
        | none =>
          Except.ok (defaultVersion,
            ["Error parsing most recent github release, no version number found. Please report an issue at "
              ++ kIssueUrl])
        | some (ma, mi, re) =>
          match parseIntStr ma, parseIntStr mi, parseIntStr re with
          | some a, some b, some c => Except.ok (⟨a, b, c⟩, [])
          | _, _, _ => Except.error "FormatException in int.Parse"

/-- Claim C10: GetRemoteVersion never propagates a fetch failure or a
pattern mismatch: when the page read throws, or when any of the three regex
stages fails to match, it returns the default-constructed Version with
exactly one logged error instead of raising. -/
theorem c10_remote_version_never_raises_on_failure
    (matchReleaseHeader matchAnchorText : String → Option String)
    (matchVersionNumber : String → Option (String × String × String))
    (parseIntStr : String → Option Int)
    (e html header versionText : String) :
    (getRemoteVersion (Except.error e) matchReleaseHeader matchAnchorText
        matchVersionNumber parseIntStr =
      Except.ok (defaultVersion, ["Error fetching most recent github release: " ++ e])) ∧
    (matchReleaseHeader html = none →
      getRemoteVersion (Except.ok html) matchReleaseHeader matchAnchorText
          matchVersionNumber parseIntStr =
        Except.ok (defaultVersion,
          ["Error parsing most recent github release, no match found. Please report an issue at "
            ++ kIssueUrl])) ∧
    (matchReleaseHeader html = some header → matchAnchorText header = none →
      getRemoteVersion (Except.ok html) matchReleaseHeader matchAnchorText
          matchVersionNumber parseIntStr =
        Except.ok (defaultVersion,
          ["Error parsing most recent github release, no match found. Please report an issue at "
            ++ kIssueUrl])) ∧
    (matchReleaseHeader html = some header → matchAnchorText header = some versionText →
      matchVersionNumber versionText = none →
      getRemoteVersion (Except.ok html) matchReleaseHeader matchAnchorText
          matchVersionNumber parseIntStr =
        Except.ok (defaultVersion,
          ["Error parsing most recent github release, no version number found. Please report an issue at "
            ++ kIssueUrl])) := by
  refine ⟨rfl, ?_, ?_, ?_⟩
  · intro h1
    simp [getRemoteVersion, h1]
  · intro h1 h2
    simp [getRemoteVersion, h1, h2]
  · intro h1 h2 h3
    simp [getRemoteVersion, h1, h2, h3]

/-- Witness for Claim C10: with a page that matches no release-title
header, the checker returns the default version and logs exactly one
error. -/
theorem c10_remote_version_never_raises_on_failure_witness :
    getRemoteVersion (Except.ok "<html></html>") (fun _ => none) (fun _ => none)
        (fun _ => none) (fun _ => none) =
      Except.ok (defaultVersion,
        ["Error parsing most recent github release, no match found. Please report an issue at "
          ++ kIssueUrl]) :=
  (c10_remote_version_never_raises_on_failure (fun _ => none) (fun _ => none)
      (fun _ => none) (fun _ => none) "" "<html></html>" "" "").2.1 rfl

/-! ## changeExportToPush, translated from the trigger distribution build
script.  Lines are handled as character lists; the two regexes are
anchored literal-prefix patterns and are translated as such. -/

/-- Does the pattern match a leading segment of the line? -/
def startsWithChars : List Char → List Char → Bool
  | [], _ => true
  | _ :: _, [] => false
  | p :: ps, c :: cs => p == c && startsWithChars ps cs

/-- Drop the leading whitespace run, modelling the \s* tail of the opening
regex. -/
def dropWSChars : List Char → List Char
  | [] => []
  | c :: cs => if c.isWhitespace then dropWSChars cs else c :: cs

/-- Translated from the build script: the opening pattern (exportRegex)
matching an export default or const triggerSet assignment line; on a match,
the rest of the line after the matched prefix and its trailing whitespace;
none when it does not match. -/
def exportRestChars (cs : List Char) : Option (List Char) :=
  if startsWithChars "export default \x7b".toList cs then
    some (dropWSChars (cs.drop "export default \x7b".toList.length))
  else if startsWithChars "const triggerSet = \x7b".toList cs then
    some (dropWSChars (cs.drop "const triggerSet = \x7b".toList.length))
  else none

/-- A line the opening pattern matches. -/
def exportTestChars (cs : List Char) : Bool :=
  (exportRestChars cs).isSome

/-- Translated from the build script: the closing pattern (closingRegex): a
closing brace and semicolon followed only by whitespace to the end. -/
def closingTestChars (cs : List Char) : Bool :=
  startsWithChars "\x7d;".toList cs && (cs.drop 2).all Char.isWhitespace

/-- The scan state of changeExportToPush: replacedExportCount,
replacedClosingCount and the transformed lines so far. -/
structure PushScanState where
  exportCount : Nat
  closingCount : Nat
  outLines : List (List Char)

/-- Translated from the build script: the per-line body of the map: replace
a matching opening line with the push header, counting it; then — the count
being nonzero — test the (possibly already replaced) line against the
closing pattern and replace it, counting that too. -/
def pushLine (st : PushScanState) (line : List Char) : PushScanState :=
  match exportRestChars line with
  | some rest =>
    let newLine := "Options.Triggers.push(\x7b".toList ++ rest
    if st.exportCount + 1 ≠ 0 ∧ closingTestChars newLine then
      ⟨st.exportCount + 1, st.closingCount + 1, st.outLines ++ ["\x7d);".toList]⟩
    else
      ⟨st.exportCount + 1, st.closingCount, st.outLines ++ [newLine]⟩
  | none =>
    if st.exportCount ≠ 0 ∧ closingTestChars line then
      ⟨st.exportCount, st.closingCount + 1, st.outLines ++ ["\x7d);".toList]⟩
    else
      ⟨st.exportCount, st.closingCount, st.outLines ++ [line]⟩

/-- Translated from the build script: transform the transpiled lines;
unless exactly one opening and exactly one closing line were replaced,
abort with exit code 3 instead of returning the transformed file. -/
def changeExportToPush (lines : List String) : Except Nat (List String) :=
  let st := (lines.map String.toList).foldl pushLine ⟨0, 0, []⟩
  if st.exportCount = 1 ∧ st.closingCount = 1 then
    Except.ok (st.outLines.map (fun cs => String.mk cs))
  else Except.error 3

/-- Number of lines the opening pattern matches. -/
def exportLineCount (lines : List String) : Nat :=
  (lines.map String.toList).countP exportTestChars

/-- Number of closing-pattern lines at positions after the first opening
line; a closing line seen before any opening match is never replaced. -/
def closingAfterFirstExport : List (List Char) → Nat
  | [] => 0
  | l :: rest =>
    if exportTestChars l then rest.countP closingTestChars
    else closingAfterFirstExport rest

/-- Number of closing replacements the scan performs. -/
def closingReplacementCount (lines : List String) : Nat :=
  closingAfterFirstExport (lines.map String.toList)

/-- A matching pattern agrees with the line on the head character. -/
theorem startsWithChars_head {p c : Char} {ps cs : List Char}
    (h : startsWithChars (p :: ps) (c :: cs) = true) : p = c := by
  unfold startsWithChars at h
  simp only [Bool.and_eq_true, beq_iff_eq] at h
  exact h.1

/-- An opening line starts with the letter e or the letter c. -/
theorem exportTest_head {c : Char} {cs : List Char}
    (h : exportTestChars (c :: cs) = true) : c = 'e' ∨ c = 'c' := by
  unfold exportTestChars exportRestChars at h
  by_cases h1 : startsWithChars "export default \x7b".toList (c :: cs) = true
  · left
    exact (startsWithChars_head
      (show startsWithChars ('e' :: "xport default \x7b".toList) (c :: cs) = true from h1)).symm
  · rw [if_neg h1] at h
    by_cases h2 : startsWithChars "const triggerSet = \x7b".toList (c :: cs) = true
    · right
      exact (startsWithChars_head
        (show startsWithChars ('c' :: "onst triggerSet = \x7b".toList) (c :: cs) = true from h2)).symm
    · rw [if_neg h2] at h
      simp at h

/-- No line matches both the opening and the closing pattern. -/
theorem closing_false_of_export {l : List Char} (h : exportTestChars l = true) :
    closingTestChars l = false := by
  cases l with
  | nil => simp [exportTestChars, exportRestChars, startsWithChars] at h
  | cons c cs =>
    rcases exportTest_head h with hc | hc <;> subst hc <;> rfl

/-- A replaced opening line never matches the closing pattern. -/
theorem closing_false_of_replaced (rest : List Char) :
    closingTestChars ("Options.Triggers.push(\x7b".toList ++ rest) = false := rfl

/-- One scan step adds one to the export count exactly on opening lines. -/
theorem pushLine_exportCount (st : PushScanState) (l : List Char) :
    (pushLine st l).exportCount =
      st.exportCount + (if exportTestChars l then 1 else 0) := by
  unfold pushLine exportTestChars
  cases hx : exportRestChars l with
  | some r =>
    dsimp only
    split <;> simp
  | none =>
    dsimp only
    split <;> simp

/-- One scan step adds one to the closing count exactly on non-opening
closing lines seen while the export count is nonzero. -/
theorem pushLine_closingCount (st : PushScanState) (l : List Char) :
    (pushLine st l).closingCount =
      st.closingCount +
        (if exportTestChars l = false ∧ st.exportCount ≠ 0 ∧ closingTestChars l = true
         then 1 else 0) := by
  unfold pushLine
  cases hx : exportRestChars l with
  | some r =>
    have hTest : exportTestChars l = true := by simp [exportTestChars, hx]
    dsimp only
    rw [if_neg]
    · simp [hTest]
    · rintro ⟨-, hcl⟩
      rw [closing_false_of_replaced r] at hcl
      cases hcl
  | none =>
    have hTest : exportTestChars l = false := by simp [exportTestChars, hx]
    dsimp only
    split
    · rename_i hcond
      simp [hTest, hcond.1, hcond.2]
    · rename_i hcond
      rw [if_neg]
      · simp
      · rintro ⟨-, h2, h3⟩
        exact hcond ⟨h2, h3⟩

/-- One scan step emits exactly one output line. -/
theorem pushLine_outLen (st : PushScanState) (l : List Char) :
    (pushLine st l).outLines.length = st.outLines.length + 1 := by
  unfold pushLine
  cases exportRestChars l <;> dsimp only <;> split <;> simp

/-- The scan counts exactly the opening lines. -/
theorem foldl_pushLine_exportCount (lines : List (List Char)) (st : PushScanState) :
    (lines.foldl pushLine st).exportCount =
      st.exportCount + lines.countP exportTestChars := by
  induction lines generalizing st with
  | nil => simp
  | cons l rest ih =>
    rw [List.foldl_cons, List.countP_cons, ih, pushLine_exportCount]
    by_cases hT : exportTestChars l = true
    · simp [hT]
      omega
    · have hT' : exportTestChars l = false := by simpa using hT
      simp [hT']

/-- Once an opening line has been replaced, the scan counts every further
closing line. -/
theorem foldl_pushLine_closing_pos (lines : List (List Char)) (st : PushScanState)
    (h : st.exportCount ≠ 0) :
    (lines.foldl pushLine st).closingCount =
      st.closingCount + lines.countP closingTestChars := by
  induction lines generalizing st with
  | nil => simp
  | cons l rest ih =>
    have hec : (pushLine st l).exportCount ≠ 0 := by
      rw [pushLine_exportCount]
      split <;> omega
    rw [List.foldl_cons, List.countP_cons, ih _ hec, pushLine_closingCount]
    by_cases hT : exportTestChars l = true
    · have hcl := closing_false_of_export hT
      simp [hT, hcl]
    · have hT' : exportTestChars l = false := by simpa using hT
      by_cases hc : closingTestChars l = true
      · simp [hT', hc, h]
        omega
      · have hc' : closingTestChars l = false := by simpa using hc
        simp [hT', hc']

/-- Before any opening line has been replaced, the scan counts exactly the
closing lines after the first opening line. -/
theorem foldl_pushLine_closing_zero (lines : List (List Char)) (st : PushScanState)
    (h : st.exportCount = 0) :
    (lines.foldl pushLine st).closingCount =
      st.closingCount + closingAfterFirstExport lines := by
  induction lines generalizing st with
  | nil => simp [closingAfterFirstExport]
  | cons l rest ih =>
    rw [List.foldl_cons]
    unfold closingAfterFirstExport
    by_cases hT : exportTestChars l = true
    · rw [if_pos hT]
      have hec : (pushLine st l).exportCount ≠ 0 := by
        rw [pushLine_exportCount, h, hT]
        simp
      have hcc : (pushLine st l).closingCount = st.closingCount := by
        rw [pushLine_closingCount]
        simp [hT]
      rw [foldl_pushLine_closing_pos rest _ hec, hcc]
    · have hT' : exportTestChars l = false := by simpa using hT
      have hec : (pushLine st l).exportCount = 0 := by
        rw [pushLine_exportCount, h, hT']
        simp
      have hcc : (pushLine st l).closingCount = st.closingCount := by
        rw [pushLine_closingCount]
        simp [h]
      rw [if_neg hT, ih _ hec, hcc]

/-- The scan emits one output line per input line. -/
theorem foldl_pushLine_outLen (lines : List (List Char)) (st : PushScanState) :
    (lines.foldl pushLine st).outLines.length =
      st.outLines.length + lines.length := by
  induction lines generalizing st with
  | nil => simp
  | cons l rest ih =>
    rw [List.foldl_cons, ih, pushLine_outLen, List.length_cons]
    omega

/-- The definition of changeExportToPush with its let binding resolved. -/
theorem changeExportToPush_eq (lines : List String) :
    changeExportToPush lines =
      if ((lines.map String.toList).foldl pushLine ⟨0, 0, []⟩).exportCount = 1 ∧
          ((lines.map String.toList).foldl pushLine ⟨0, 0, []⟩).closingCount = 1 then
        Except.ok ((((lines.map String.toList).foldl pushLine ⟨0, 0, []⟩).outLines).map
          (fun cs => String.mk cs))
      else Except.error 3 := rfl

/-- Claim C9: changeExportToPush succeeds exactly when the transpiled
source holds exactly one opening line matching the export or trigger-set
pattern and exactly one closing line after it (closing lines are replaced
only once an opening replacement has occurred); on success it emits one
output line per input line, and in every other case it aborts with exit
code 3 instead of emitting a file. -/
theorem c9_change_export_to_push (lines : List String) :
    ((∃ out, changeExportToPush lines = Except.ok out) ↔
      exportLineCount lines = 1 ∧ closingReplacementCount lines = 1) ∧
    (∀ out, changeExportToPush lines = Except.ok out → out.length = lines.length) ∧
    (¬(exportLineCount lines = 1 ∧ closingReplacementCount lines = 1) →
      changeExportToPush lines = Except.error 3) := by
  have hec := foldl_pushLine_exportCount (lines.map String.toList) ⟨0, 0, []⟩
  have hcc := foldl_pushLine_closing_zero (lines.map String.toList) ⟨0, 0, []⟩ rfl
  have hlen := foldl_pushLine_outLen (lines.map String.toList) ⟨0, 0, []⟩
  simp only [List.length_nil, List.length_map, Nat.zero_add] at hec hcc hlen
  rw [changeExportToPush_eq]
  unfold exportLineCount closingReplacementCount
  by_cases hok : (((lines.map String.toList).foldl pushLine ⟨0, 0, []⟩).exportCount = 1 ∧
      ((lines.map String.toList).foldl pushLine ⟨0, 0, []⟩).closingCount = 1)
  · rw [if_pos hok]
    refine ⟨⟨fun _ => ⟨by omega, by omega⟩, fun _ => ⟨_, rfl⟩⟩, ?_, ?_⟩
    · intro out hout
      injection hout with hout2
      rw [← hout2, List.length_map, hlen]
    · intro hbad
      exact absurd ⟨by omega, by omega⟩ hbad
  · rw [if_neg hok]
    refine ⟨⟨?_, ?_⟩, ?_, fun _ => rfl⟩
    · rintro ⟨out, hout⟩
      cases hout
    · rintro ⟨h1, h2⟩
      exact absurd ⟨by omega, by omega⟩ hok
    · intro out hout
      cases hout

/-- Witness for Claim C9: a transpiled file with no opening line (its
closing line sits before any opening match) makes the build abort with
exit code 3. -/
theorem c9_change_export_to_push_witness :
    changeExportToPush ["function f() \x7b", "\x7d;"] = Except.error 3 :=
  (c9_change_export_to_push ["function f() \x7b", "\x7d;"]).2.2 (by decide)

end Cactbot
